import Mathlib

/-!
# Verification of the SHL assessment recommendation engine

A shallow embedding of the text-retrieval core of the repository
(`preprocessing.py`, `recommender.py`, `evaluate.py`, `app.py`) together
with proofs about the embedded functions.

Modelling conventions, stated once here:

* Python strings are `String`; Python floats are exact rationals `ℚ`
  (floating-point rounding is out of scope).
* `similarity_score` in the embedding holds the *square* of the source's
  cosine similarity, kept as an exact rational (`simsq`). Since every
  cosine value produced by the source is non-negative (tf-idf weights are
  non-negative), squaring is a strictly monotone order embedding of the
  score scale: ranking order, exact ties, strict positivity and the
  bounds 0 and 1 are all preserved exactly, and the square avoids
  irrational square roots that a shallow embedding over ℚ cannot carry.
* `TfidfVectorizer`'s idf table is `idf(t) = ln((1+N)/(1+df(t))) + 1`, a
  transcendental real. The embedding takes the idf map as an explicit
  parameter `idfP : ℕ → ℕ → ℚ` of index building (arguments: corpus size
  N and document frequency df); every ranking-structure theorem below
  holds for an arbitrary such table. In concrete computations we use
  `unitIdf = fun N df => 1`, which is the source's exact value whenever
  df = N (ln 1 + 1 = 1), as in the catalogs used for counterexamples.
* `numpy.argsort` is embedded as a stable ascending sort of the index
  list (sort by the key, ties kept in index order) — numpy's actual
  behaviour on the short arrays involved here (its introsort falls back
  to insertion sort below 16 elements) and the only deterministic
  reading of the source.
-/

/-! ## Python character classes (`re` with ASCII data) -/

/-- Python's `\s` class: space, tab, newline, carriage return, vertical
tab, form feed. -/
def isPySpace (c : Char) : Bool :=
  c = ' ' || c = '\t' || c = '\n' || c = '\r' || c = '\x0b' || c = '\x0c'

/-- Python's `\w` class on ASCII text: alphanumeric or underscore. -/
def isPyWord (c : Char) : Bool := c.isAlphanum || c = '_'

/-- One step of `re.sub(r'[^\w\s\-]', ' ', text)`: a character that is not
word, whitespace or hyphen becomes a space. -/
def subNonWord (c : Char) : Char :=
  if isPyWord c || isPySpace c || c = '-' then c else ' '

/-- `re.sub(r'\s+', ' ', ·)` on a character list: every maximal run of
whitespace becomes one space. The Boolean argument records whether the
previous character was part of a whitespace run. -/
def collapseWsAux : Bool → List Char → List Char
  | _, [] => []
  | prevSpace, c :: rest =>
    if isPySpace c then
      if prevSpace then collapseWsAux true rest
      else ' ' :: collapseWsAux true rest
    else c :: collapseWsAux false rest

def collapseWs (l : List Char) : List Char := collapseWsAux false l

/-- Python's `str.strip()`: drop leading and trailing whitespace. -/
def pyStrip (l : List Char) : List Char :=
  ((l.dropWhile isPySpace).reverse.dropWhile isPySpace).reverse

/-- `text.lower()` followed by `re.sub(r'[^\w\s\-]', ' ', ·)`, as a
character list. -/
def lowerSub (s : String) : List Char := (s.data.map Char.toLower).map subNonWord

/-- A value read from a loosely-typed record: a Python string or any
non-string value (NaN, a number, a list, …). -/
inductive PyObj where
  | pstr (s : String)
  | nonString
deriving DecidableEq

/-- `preprocessing.clean_text`: non-strings map to `""`; a string is
lowercased, characters outside `[\w\s\-]` become spaces, whitespace runs
collapse to one space, and the result is stripped. -/
def clean_text : PyObj → String
  | .nonString => ""
  | .pstr text => String.mk (pyStrip (collapseWs (lowerSub text)))

/-- `SHLRecommender.preprocess_query`: the same lowercase, substitute,
collapse, strip pipeline applied to the query string (the source code of
the two functions is character-for-character the same). -/
def SHLRecommender.preprocess_query (query : String) : String :=
  String.mk (pyStrip (collapseWs (lowerSub query)))

/-! ## The spec-side normalizer (claim C8's formulation)

"collapse whitespace runs to one space and trim" is equivalently "split
into whitespace-separated words and rejoin with single spaces"; the
equivalence is proved below (`clean_text_eq_normalizeSpec`). -/

/-- The whitespace-separated words of a character list, in order; no word
is empty. -/
def wordsOf : List Char → List (List Char)
  | [] => []
  | c :: rest =>
    if isPySpace c then wordsOf (rest.dropWhile isPySpace)
    else (c :: rest.takeWhile (fun d => !isPySpace d)) ::
      wordsOf (rest.dropWhile (fun d => !isPySpace d))
termination_by l => l.length
decreasing_by
  · exact Nat.lt_succ_of_le ((List.dropWhile_sublist _).length_le)
  · exact Nat.lt_succ_of_le ((List.dropWhile_sublist _).length_le)

/-- The claim's reading of the normalizer: lowercase, substitute the
disallowed characters, then join the remaining words with single
spaces (which collapses runs and trims in one stroke). -/
def normalizeSpec : PyObj → String
  | .nonString => ""
  | .pstr text => String.mk ((wordsOf (lowerSub text)).intersperse [' ']).flatten

/-! ## The sklearn analyzer

`TfidfVectorizer(max_features=5000, stop_words='english',
ngram_range=(1,3))` with the default `lowercase=True` and
`token_pattern=r"(?u)\b\w\w+\b"`: lowercase, take maximal runs of word
characters of length at least 2 as tokens, remove English stop words,
then emit all 1-, 2- and 3-grams of the remaining token sequence (an
n-gram is the tokens joined by single spaces). -/

/-- scikit-learn's frozen English stop-word list
(`sklearn.feature_extraction._stop_words.ENGLISH_STOP_WORDS`). -/
def englishStopWords : List String :=
  ["a", "about", "above", "across", "after", "afterwards", "again", "against",
   "all", "almost", "alone", "along", "already", "also", "although", "always",
   "am", "among", "amongst", "amoungst", "amount", "an", "and", "another",
   "any", "anyhow", "anyone", "anything", "anyway", "anywhere", "are",
   "around", "as", "at", "back", "be", "became", "because", "become",
   "becomes", "becoming", "been", "before", "beforehand", "behind", "being",
   "below", "beside", "besides", "between", "beyond", "bill", "both",
   "bottom", "but", "by", "call", "can", "cannot", "cant", "co", "con",
   "could", "couldnt", "cry", "de", "describe", "detail", "do", "done",
   "down", "due", "during", "each", "eg", "eight", "either", "eleven",
   "else", "elsewhere", "empty", "enough", "etc", "even", "ever", "every",
   "everyone", "everything", "everywhere", "except", "few", "fifteen",
   "fifty", "fill", "find", "fire", "first", "five", "for", "former",
   "formerly", "forty", "found", "four", "from", "front", "full", "further",
   "get", "give", "go", "had", "has", "hasnt", "have", "he", "hence", "her",
   "here", "hereafter", "hereby", "herein", "hereupon", "hers", "herself",
   "him", "himself", "his", "how", "however", "hundred", "i", "ie", "if",
   "in", "inc", "indeed", "interest", "into", "is", "it", "its", "itself",
   "keep", "last", "latter", "latterly", "least", "less", "ltd", "made",
   "many", "may", "me", "meanwhile", "might", "mill", "mine", "more",
   "moreover", "most", "mostly", "move", "much", "must", "my", "myself",
   "name", "namely", "neither", "never", "nevertheless", "next", "nine",
   "no", "nobody", "none", "noone", "nor", "not", "nothing", "now",
   "nowhere", "of", "off", "often", "on", "once", "one", "only", "onto",
   "or", "other", "others", "otherwise", "our", "ours", "ourselves", "out",
   "over", "own", "part", "per", "perhaps", "please", "put", "rather", "re",
   "same", "see", "seem", "seemed", "seeming", "seems", "serious", "several",
   "she", "should", "show", "side", "since", "sincere", "six", "sixty",
   "so", "some", "somehow", "someone", "something", "sometime", "sometimes",
   "somewhere", "still", "such", "system", "take", "ten", "than", "that",
   "the", "their", "them", "themselves", "then", "thence", "there",
   "thereafter", "thereby", "therefore", "therein", "thereupon", "these",
   "they", "thick", "thin", "third", "this", "those", "though", "three",
   "through", "throughout", "thru", "thus", "to", "together", "too", "top",
   "toward", "towards", "twelve", "twenty", "two", "un", "under", "until",
   "up", "upon", "us", "very", "via", "was", "we", "well", "were", "what",
   "whatever", "when", "whence", "whenever", "where", "whereafter",
   "whereas", "whereby", "wherein", "whereupon", "wherever", "whether",
   "which", "while", "whither", "who", "whoever", "whole", "whom", "whose",
   "why", "will", "with", "within", "without", "would", "yet", "you",
   "your", "yours", "yourself", "yourselves"]

/-- The token pattern `\b\w\w+\b` on lowercased text: maximal runs of
word characters, keeping only runs of length at least 2. -/
def sklearnTokenize (s : String) : List String :=
  (((s.data.map Char.toLower).splitOnP (fun c => !isPyWord c)).filter
    (fun w => 2 ≤ w.length)).map (fun w => String.mk w)

/-- All contiguous windows of length `n`. -/
def windows (n : ℕ) (l : List α) : List (List α) :=
  (List.range (l.length + 1 - n)).map (fun i => (l.drop i).take n)

/-- 1-, 2- and 3-grams of a token sequence, each joined by single spaces
(sklearn builds n-grams after stop-word removal). -/
def ngrams1to3 (toks : List String) : List String :=
  toks ++ ((windows 2 toks).map (String.intercalate " ")) ++
    ((windows 3 toks).map (String.intercalate " "))

/-- The fitted analyzer: lowercase, tokenize, drop stop words, n-grams. -/
def sklearnAnalyze (s : String) : List String :=
  ngrams1to3 ((sklearnTokenize s).filter (fun t => !englishStopWords.contains t))

/-! ## Exact rational vector arithmetic

Vectors are dense lists of rationals aligned with the fitted vocabulary.
`simsq q d` is the *square* of the cosine similarity of `q` and `d`,
with sklearn's convention that a zero vector has similarity 0 (its
`normalize` leaves zero rows as zero instead of dividing by zero). -/

def dotq (v w : List ℚ) : ℚ := (List.zipWith (· * ·) v w).sum

def sqnorm (v : List ℚ) : ℚ := dotq v v

/-- Squared cosine similarity: `(v·w)² / (‖v‖²‖w‖²)`, and 0 when either
vector is zero. -/
def simsq (v w : List ℚ) : ℚ :=
  if sqnorm v = 0 ∨ sqnorm w = 0 then 0 else (dotq v w) ^ 2 / (sqnorm v * sqnorm w)

/-! ## The argsort and slicing of `recommend`

`cosine_similarities.argsort()[-num_recommendations:][::-1]` -/

/-- The sort key of the stable ascending argsort: compare similarity
values, break exact ties by index (a stable sort of an increasing index
list is exactly the sort by this lexicographic key). -/
def simLe (sims : List ℚ) (i j : ℕ) : Prop :=
  sims.getD i 0 < sims.getD j 0 ∨ (sims.getD i 0 = sims.getD j 0 ∧ i ≤ j)

instance (sims : List ℚ) : DecidableRel (simLe sims) := fun _ _ =>
  inferInstanceAs (Decidable (_ ∨ _))

instance (sims : List ℚ) : IsTotal ℕ (simLe sims) := by
  constructor
  intro i j
  rcases lt_trichotomy (sims.getD i 0) (sims.getD j 0) with h | h | h
  · exact Or.inl (Or.inl h)
  · rcases Nat.le_total i j with hij | hij
    · exact Or.inl (Or.inr ⟨h, hij⟩)
    · exact Or.inr (Or.inr ⟨h.symm, hij⟩)
  · exact Or.inr (Or.inl h)

instance (sims : List ℚ) : IsTrans ℕ (simLe sims) := by
  constructor
  rintro i j k (h₁ | ⟨e₁, l₁⟩) (h₂ | ⟨e₂, l₂⟩)
  · exact Or.inl (h₁.trans h₂)
  · exact Or.inl (e₂ ▸ h₁)
  · exact Or.inl (e₁ ▸ h₂)
  · exact Or.inr ⟨e₁.trans e₂, l₁.trans l₂⟩

/-- `numpy.argsort` of the similarity array: the indices `0 .. n-1`
sorted ascending by value, ties in index order. -/
def argsortQ (sims : List ℚ) : List ℕ :=
  List.insertionSort (simLe sims) (List.range sims.length)

/-- Python's `a[-k:]`: the last `k` elements for `k > 0` (all of `a` when
`k ≥ len(a)`), and all of `a` for `k = 0` (since `-0 == 0`). -/
def lastSlice (l : List α) (k : ℕ) : List α :=
  if k = 0 then l else l.drop (l.length - k)

/-- The document indices `recommend` reports, in order: the argsort's
last `num_recommendations` entries reversed, keeping those with strictly
positive similarity. -/
def rankedIndices (sims : List ℚ) (num_recommendations : ℕ) : List ℕ :=
  ((lastSlice (argsortQ sims) num_recommendations).reverse).filter
    (fun idx => decide (0 < sims.getD idx 0))

/-! ## The data model (`preprocessing.py`) -/

/-- One catalog record with every column the pipeline reads or writes.
The raw JSON may omit fields; `load_data`/`recommend` default them
(`remote_support`/`adaptive_irt` to false, `test_types` to `[]`,
`duration` to 0), so a row is total here. `description` is a `PyObj`
because a missing description is NaN, a non-string. The derived columns
`test_types_str` and `combined_features` start empty and are filled by
`preprocess_data`/`get_features_for_recommendation`. -/
structure AssessmentRow where
  id : String := ""
  name : String := ""
  url : String := ""
  remote_support : Bool := false
  adaptive_irt : Bool := false
  test_types : List String := []
  description : PyObj := .pstr ""
  duration : ℕ := 0
  test_types_str : String := ""
  remote_support_display : String := ""
  adaptive_irt_display : String := ""
  combined_features : String := ""
deriving DecidableEq

instance : Inhabited AssessmentRow := ⟨{}⟩

/-- The string form of a row's description (`clean_text` has already run
when this is read, so it is a plain string in practice). -/
def AssessmentRow.descriptionStr (row : AssessmentRow) : String :=
  match row.description with
  | .pstr s => s
  | .nonString => ""

/-- What `load_data` can find at the given path: a parsed JSON list of
records, a missing file, or invalid JSON. -/
inductive LoadInput where
  | parsed (rows : List AssessmentRow)
  | fileNotFound
  | badJson

/-- `preprocessing.load_data`: the parsed rows as a DataFrame; each error
handler prints a message and returns an *empty* DataFrame (no exception
escapes). -/
def preprocessing.load_data : LoadInput → List AssessmentRow
  | .parsed rows => rows
  | .fileNotFound => []
  | .badJson => []

/-- `preprocessing.preprocess_data`: clean every description, derive
`test_types_str` (the list joined by ", ") and the Yes/No display
columns. -/
def preprocess_data (df : List AssessmentRow) : List AssessmentRow :=
  df.map (fun row =>
    { row with
      description := .pstr (clean_text row.description)
      test_types_str := String.intercalate ", " row.test_types
      remote_support_display := if row.remote_support then "Yes" else "No"
      adaptive_irt_display := if row.adaptive_irt then "Yes" else "No" })

/-- `preprocessing.get_features_for_recommendation`: concatenate the
cleaned description and `test_types_str` into `combined_features`. -/
def get_features_for_recommendation (df : List AssessmentRow) : List AssessmentRow :=
  df.map (fun row =>
    { row with combined_features := row.descriptionStr ++ " " ++ row.test_types_str })

/-! ## The recommender (`recommender.py`) -/

/-- The fitted state of `TfidfVectorizer` (its `vocabulary_` and `idf_`
attributes): the vocabulary in its sorted order and the idf weight of
each vocabulary term, aligned positionally. -/
structure VectState where
  vocabulary_ : List String
  idf_ : List ℚ
deriving DecidableEq

/-- `sklearn`'s transform of one text with a fitted vectorizer: analyze,
count occurrences of each vocabulary term (out-of-vocabulary terms
contribute nothing), and weight by idf. The source also L2-normalizes;
the embedding leaves the vectors unnormalized because `simsq` divides by
both norms, which makes the similarity invariant under that scaling. -/
def VectState.transform (vec : VectState) (text : String) : List ℚ :=
  let toks := sklearnAnalyze text
  List.zipWith (fun t w => ((toks.count t : ℕ) : ℚ) * w) vec.vocabulary_ vec.idf_

/-- `SHLRecommender`'s mutable attributes: all `None` after `__init__`,
all set by a successful `load_dataframe`. -/
structure SHLRecommender where
  data_df : Option (List AssessmentRow)
  tfidf_vectorizer : Option VectState
  tfidf_matrix : Option (List (List ℚ))

/-- `SHLRecommender()` before any data is loaded. -/
def SHLRecommender.new : SHLRecommender := ⟨none, none, none⟩

/-- Order for vocabulary sorting: code-point lexicographic `<` on the
character lists (Python's string order on the ASCII data involved). -/
def charLtb : List Char → List Char → Bool
  | [], [] => false
  | [], _ :: _ => true
  | _ :: _, [] => false
  | a :: as, b :: bs =>
    if a.val < b.val then true else if b.val < a.val then false else charLtb as bs

def strLeP (s t : String) : Prop := charLtb t.data s.data = false

instance : DecidableRel strLeP := fun _ _ => inferInstanceAs (Decidable (_ = false))

/-- sklearn's fitted vocabulary: every n-gram of the corpus, sorted; when
more than `max_features = 5000` distinct terms exist, the 5000 with the
highest corpus-wide frequency are kept (ties toward the lexicographically
smaller term) and re-sorted. -/
def buildVocabulary (docsTokens : List (List String)) : List String :=
  let allTerms := (docsTokens.flatten).dedup
  let sorted := List.insertionSort strLeP allTerms
  if sorted.length ≤ 5000 then sorted
  else
    let freq := fun t => (docsTokens.flatten).count t
    let byFreq := List.insertionSort
      (fun s t => freq t < freq s ∨ (freq t = freq s ∧ strLeP s t)) sorted
    List.insertionSort strLeP (byFreq.take 5000)

instance (docsTokens : List (List String)) :
    DecidableRel (fun s t => (docsTokens.flatten).count t < (docsTokens.flatten).count s ∨
      ((docsTokens.flatten).count t = (docsTokens.flatten).count s ∧ strLeP s t)) :=
  fun _ _ => inferInstanceAs (Decidable (_ ∨ _))

/-- `SHLRecommender.load_dataframe` with the idf table `idfP` (see the
header note): store the DataFrame, fit the vectorizer on the
`combined_features` column, and store the tf·idf document matrix. -/
def SHLRecommender.load_dataframe (idfP : ℕ → ℕ → ℚ) (df : List AssessmentRow) :
    SHLRecommender :=
  let corpus := df.map (fun row => row.combined_features)
  let docsTokens := corpus.map sklearnAnalyze
  let vocab := buildVocabulary docsTokens
  let n := df.length
  let idfList := vocab.map (fun t => idfP n (docsTokens.countP (fun toks => toks.contains t)))
  let vec : VectState := ⟨vocab, idfList⟩
  { data_df := some df
    tfidf_vectorizer := some vec
    tfidf_matrix := some (corpus.map (fun text => vec.transform text)) }

/-- `SHLRecommender.load_data`: read the file; when the DataFrame is not
empty, preprocess, derive features and fit; otherwise do nothing (the
recommender stays in its previous, unfitted state). -/
def SHLRecommender.load_data (idfP : ℕ → ℕ → ℚ) (r : SHLRecommender)
    (input : LoadInput) : SHLRecommender :=
  let raw_df := preprocessing.load_data input
  if raw_df.isEmpty then r
  else SHLRecommender.load_dataframe idfP
    (get_features_for_recommendation (preprocess_data raw_df))

/-- `SHLRecommender.__init__(data_file=...)`. -/
def SHLRecommender.init (idfP : ℕ → ℕ → ℚ) (data_file : Option LoadInput) :
    SHLRecommender :=
  match data_file with
  | some input => SHLRecommender.new.load_data idfP input
  | none => SHLRecommender.new

/-- One recommendation record as `recommend` returns it. The
`similarity_score` field holds the squared cosine (see the header). -/
structure Recommendation where
  id : String
  name : String
  url : String
  remote_support : Bool
  adaptive_irt : Bool
  test_types : List String
  description : String
  duration : ℕ
  similarity_score : ℚ
deriving DecidableEq

def mkRecommendation (row : AssessmentRow) (score : ℚ) : Recommendation :=
  { id := row.id
    name := row.name
    url := row.url
    remote_support := row.remote_support
    adaptive_irt := row.adaptive_irt
    test_types := row.test_types
    description := row.descriptionStr
    duration := row.duration
    similarity_score := score }

/-- The similarity row `cosine_similarity(query_vector, tfidf_matrix)`
of a fitted vectorizer/matrix pair for one query (squared values). -/
def simsRow (vec : VectState) (mat : List (List ℚ)) (query : String) : List ℚ :=
  let qv := vec.transform (SHLRecommender.preprocess_query query)
  mat.map (fun row => simsq qv row)

/-- `SHLRecommender.recommend`: `[]` when any fitted attribute is `None`;
otherwise preprocess and transform the query, rank all documents by
cosine similarity, take `argsort()[-num_recommendations:][::-1]`, and
keep those with similarity strictly greater than 0. -/
def SHLRecommender.recommend (r : SHLRecommender) (query : String)
    (num_recommendations : ℕ) : List Recommendation :=
  match r.data_df, r.tfidf_vectorizer, r.tfidf_matrix with
  | some df, some vec, some mat =>
    let sims := simsRow vec mat query
    (rankedIndices sims num_recommendations).map
      (fun idx => mkRecommendation (df.getD idx default) (sims.getD idx 0))
  | _, _, _ => []

/-- The number of documents with strictly positive similarity for a
query (0 for an unfitted recommender). -/
def SHLRecommender.posCount (r : SHLRecommender) (query : String) : ℕ :=
  match r.tfidf_vectorizer, r.tfidf_matrix with
  | some vec, some mat => (simsRow vec mat query).countP (fun s => decide (0 < s))
  | _, _ => 0

/-! ## Evaluation (`SHLRecommender.evaluate` and
`evaluate.calculate_metrics`) -/

/-- The arithmetic mean with the source's `if xs else 0` guard. -/
def meanQ (l : List ℚ) : ℚ := if l.isEmpty then 0 else l.sum / (l.length : ℚ)

/-- `len(set(recommended) & set(relevant)) / len(relevant)` (with the
source's dead `if relevant_items else 0` guard): the number of distinct
recommended values that are relevant, over the length of the relevant
list. -/
def recallOf (recommended relevant : List String) : ℚ :=
  if relevant.isEmpty then 0
  else (((recommended.filter (fun x => relevant.contains x)).dedup).length : ℚ) /
    (relevant.length : ℚ)

/-- The average-precision accumulation loop: `i` is the 0-based position
of the next item, `relevant_count` the hits so far; each hit adds
`(relevant_count + 1) / (i + 1)`. -/
def apLoop (relevant : List String) : List String → ℕ → ℕ → ℚ
  | [], _, _ => 0
  | item :: rest, i, relevant_count =>
    if relevant.contains item then
      ((relevant_count : ℚ) + 1) / ((i : ℚ) + 1) + apLoop relevant rest (i + 1) (relevant_count + 1)
    else apLoop relevant rest (i + 1) relevant_count

/-- Average precision of one query: the accumulated sum divided by
`len(relevant)` (again with the dead guard). -/
def apOf (recommended relevant : List String) : ℚ :=
  if relevant.isEmpty then 0 else apLoop relevant recommended 0 0 / (relevant.length : ℚ)

/-- One test record. `expected_assessments` is `some l` exactly when the
JSON object has that key (the new format, matched by assessment name);
otherwise `relevant_ids` is read (the old format, matched by id). -/
structure TestItem where
  query : String := ""
  expected_assessments : Option (List String) := none
  relevant_ids : List String := []

/-- The relevant list `evaluate` reads for an item, and which output
field it matches on (`true` = name, `false` = id). -/
def TestItem.relevantItems (item : TestItem) : List String × Bool :=
  match item.expected_assessments with
  | some l => (l, true)
  | none => (item.relevant_ids, false)

def Recommendation.matchField (rec : Recommendation) (useName : Bool) : String :=
  if useName then rec.name else rec.id

/-- Whether `evaluate` counts an item (does not `continue` past it):
the query is non-empty and the relevant list is non-empty. -/
def TestItem.counted (item : TestItem) : Bool :=
  !(item.query = "" || item.relevantItems.1.isEmpty)

/-- The body of `evaluate`'s loop over test queries: skip (`continue`)
when the query or the relevant list is empty; otherwise append the
item's Recall@k and average precision to the two accumulated lists. -/
def evalStep (r : SHLRecommender) (k : ℕ) (acc : List ℚ × List ℚ)
    (item : TestItem) : List ℚ × List ℚ :=
  let pair := item.relevantItems
  if item.query = "" || pair.1.isEmpty then acc
  else
    let recommended_items := (r.recommend item.query k).map
      (fun rec => rec.matchField pair.2)
    (acc.1 ++ [recallOf recommended_items pair.1],
     acc.2 ++ [apOf recommended_items pair.1])

/-- `SHLRecommender.evaluate`: `(0,0)` for an empty test set; otherwise
loop over the items, skipping those with an empty query or empty
relevant list, appending each counted item's recall and average
precision, and return the two means (0 when nothing accumulated). -/
def SHLRecommender.evaluate (r : SHLRecommender) (test_queries : List TestItem)
    (k : ℕ) : ℚ × ℚ :=
  if test_queries.isEmpty then (0, 0)
  else
    let acc := test_queries.foldl (evalStep r k) ([], [])
    (meanQ acc.1, meanQ acc.2)

/-- The body of `calculate_metrics`'s loop: identical to `evalStep` but
only the new test-query format (`expected_assessments`, matched by name,
defaulting to `[]` when the key is absent). -/
def cmStep (r : SHLRecommender) (k : ℕ) (acc : List ℚ × List ℚ)
    (item : TestItem) : List ℚ × List ℚ :=
  let expected := item.expected_assessments.getD []
  if item.query = "" || expected.isEmpty then acc
  else
    let recommended_names := (r.recommend item.query k).map Recommendation.name
    (acc.1 ++ [recallOf recommended_names expected],
     acc.2 ++ [apOf recommended_names expected])

/-- `evaluate.calculate_metrics`: the standalone harness (no emptiness
guard on the test set; the means' own guards yield `(0,0)` there). -/
def calculate_metrics (r : SHLRecommender) (test_queries : List TestItem)
    (k : ℕ) : ℚ × ℚ :=
  let acc := test_queries.foldl (cmStep r k) ([], [])
  (meanQ acc.1, meanQ acc.2)

/-- The recall of one counted item under `evaluate`. -/
def itemRecall (r : SHLRecommender) (k : ℕ) (item : TestItem) : ℚ :=
  recallOf ((r.recommend item.query k).map (fun rec => rec.matchField item.relevantItems.2))
    item.relevantItems.1

/-- The average precision of one counted item under `evaluate`. -/
def itemAP (r : SHLRecommender) (k : ℕ) (item : TestItem) : ℚ :=
  apOf ((r.recommend item.query k).map (fun rec => rec.matchField item.relevantItems.2))
    item.relevantItems.1

/-- Whether `calculate_metrics` counts an item. -/
def TestItem.countedCM (item : TestItem) : Bool :=
  !(item.query = "" || (item.expected_assessments.getD []).isEmpty)

/-! ## Spec-side metric formulas (claim C6's formulation) -/

/-- The claim's recall: `|top_k ∩ expected| / |expected|`, the
intersection taken as sets. -/
def specRecall (recommended expected : List String) : ℚ :=
  ((recommended.toFinset ∩ expected.toFinset).card : ℚ) / (expected.length : ℚ)

/-- The claim's average precision: scan the ranking in order (1-indexed
`j = i + 1`), each hit contributing hits-so-far over `j`, and divide the
sum by `|expected|`. -/
def specAP (recommended expected : List String) : ℚ :=
  (∑ i ∈ Finset.range recommended.length,
    if expected.contains (recommended.getD i "") then
      (((recommended.take (i + 1)).countP (fun x => expected.contains x) : ℕ) : ℚ) / ((i : ℚ) + 1)
    else 0) / (expected.length : ℚ)

/-! ## The service layer (`app.py`) -/

/-- What a handler can produce: a JSON response or an HTTP error
(`HTTPException(status_code=503)` is `serviceUnavailable`). -/
inductive ApiError where
  | serviceUnavailable
deriving DecidableEq

structure RecommendationResponse where
  query : String
  recommendations : List Recommendation
deriving DecidableEq

/-- The `/recommend` handler: 503 when the module-level `recommender` is
still `None` (startup failed before assigning it); otherwise a normal
response wrapping whatever `SHLRecommender.recommend` returns. -/
def app_recommend (recommender : Option SHLRecommender) (query : String)
    (num_recommendations : ℕ) : Except ApiError RecommendationResponse :=
  match recommender with
  | none => .error .serviceUnavailable
  | some r => .ok ⟨query, r.recommend query num_recommendations⟩

/-- What the spec calls DataError, as an error kind `build_index` could
in principle signal. -/
inductive BuildError where
  | dataError
deriving DecidableEq

/-- The spec's `build_index` entry point, the startup path
`SHLRecommender(data_file=DATA_FILE)`: the embedding returns `.ok`
unconditionally because every error handler on this path returns an
empty DataFrame and `load_data` then just skips fitting — no exception,
and in particular no DataError, escapes. -/
def build_index (idfP : ℕ → ℕ → ℚ) (input : LoadInput) :
    Except BuildError SHLRecommender :=
  .ok (SHLRecommender.init idfP (some input))

/-! ## Ranking structure lemmas -/

theorem argsortQ_sorted (sims : List ℚ) : (argsortQ sims).Pairwise (simLe sims) :=
  List.sorted_insertionSort (simLe sims) (List.range sims.length)

theorem argsortQ_perm (sims : List ℚ) :
    List.Perm (argsortQ sims) (List.range sims.length) :=
  List.perm_insertionSort (simLe sims) (List.range sims.length)

theorem argsortQ_nodup (sims : List ℚ) : (argsortQ sims).Nodup :=
  ((argsortQ_perm sims).nodup_iff).mpr (List.nodup_range sims.length)

theorem mem_argsortQ {sims : List ℚ} {i : ℕ} :
    i ∈ argsortQ sims ↔ i < sims.length := by
  rw [(argsortQ_perm sims).mem_iff, List.mem_range]

theorem lastSlice_sublist (l : List α) (k : ℕ) : (lastSlice l k).Sublist l := by
  unfold lastSlice
  split
  · exact List.Sublist.refl l
  · exact List.drop_sublist _ _

theorem lastSlice_length_le {k : ℕ} (l : List α) (hk : k ≠ 0) :
    (lastSlice l k).length ≤ k := by
  unfold lastSlice
  rw [if_neg hk, List.length_drop]
  omega

theorem lastSlice_zero (l : List α) : lastSlice l 0 = l := rfl

theorem lastSlice_full (l : List α) : lastSlice l l.length = l := by
  unfold lastSlice
  rw [Nat.sub_self]
  split
  · rfl
  · exact List.drop_zero l

theorem rankedIndices_pairwise (sims : List ℚ) (k : ℕ) :
    (rankedIndices sims k).Pairwise (fun a b => simLe sims b a) := by
  unfold rankedIndices
  apply List.Pairwise.filter
  rw [List.pairwise_reverse]
  exact List.Pairwise.sublist (lastSlice_sublist _ _) (argsortQ_sorted sims)

theorem rankedIndices_nodup (sims : List ℚ) (k : ℕ) : (rankedIndices sims k).Nodup := by
  unfold rankedIndices
  apply List.Nodup.filter
  rw [List.nodup_reverse]
  exact List.Nodup.sublist (lastSlice_sublist _ _) (argsortQ_nodup sims)

theorem rankedIndices_mem {sims : List ℚ} {k i : ℕ} (h : i ∈ rankedIndices sims k) :
    i < sims.length ∧ 0 < sims.getD i 0 := by
  unfold rankedIndices at h
  rw [List.mem_filter, List.mem_reverse] at h
  refine ⟨?_, by simpa using h.2⟩
  exact mem_argsortQ.mp ((lastSlice_sublist _ _).subset h.1)

theorem rankedIndices_length_le {sims : List ℚ} {k : ℕ} (hk : k ≠ 0) :
    (rankedIndices sims k).length ≤ k := by
  unfold rankedIndices
  calc _ ≤ ((lastSlice (argsortQ sims) k).reverse).length := List.length_filter_le _ _
    _ = (lastSlice (argsortQ sims) k).length := List.length_reverse _
    _ ≤ k := lastSlice_length_le _ hk

theorem countP_range_getD (l : List ℚ) (p : ℚ → Bool) :
    (List.range l.length).countP (fun i => p (l.getD i 0)) = l.countP p := by
  induction l with
  | nil => rfl
  | cons a t ih =>
    rw [List.length_cons, List.range_succ_eq_map, List.countP_cons, List.countP_map,
      List.countP_cons]
    simp only [Function.comp_def, List.getD_cons_succ, List.getD_cons_zero, ih,
      List.countP_nil]

theorem rankedIndices_length_le_countP (sims : List ℚ) (k : ℕ) :
    (rankedIndices sims k).length ≤ sims.countP (fun s => decide (0 < s)) := by
  classical
  have hnd := rankedIndices_nodup sims k
  have hnd2 : ((List.range sims.length).filter
      (fun i => decide (0 < sims.getD i 0))).Nodup :=
    List.Nodup.filter _ (List.nodup_range sims.length)
  have hsub : (rankedIndices sims k).toFinset ⊆
      ((List.range sims.length).filter (fun i => decide (0 < sims.getD i 0))).toFinset := by
    intro i hi
    rw [List.mem_toFinset] at hi
    rcases rankedIndices_mem hi with ⟨hlt, hpos⟩
    rw [List.mem_toFinset, List.mem_filter, List.mem_range]
    exact ⟨hlt, by simpa using hpos⟩
  calc (rankedIndices sims k).length
      = (rankedIndices sims k).toFinset.card := (List.toFinset_card_of_nodup hnd).symm
    _ ≤ _ := Finset.card_le_card hsub
    _ = ((List.range sims.length).filter (fun i => decide (0 < sims.getD i 0))).length :=
        List.toFinset_card_of_nodup hnd2
    _ = (List.range sims.length).countP (fun i => decide (0 < sims.getD i 0)) :=
        (List.countP_eq_length_filter _ _).symm
    _ = sims.countP (fun s => decide (0 < s)) :=
        countP_range_getD sims (fun s => decide (0 < s))

theorem rankedIndices_zero_eq_full (sims : List ℚ) :
    rankedIndices sims 0 = rankedIndices sims sims.length := by
  unfold rankedIndices
  rw [lastSlice_zero]
  have h : (argsortQ sims).length = sims.length := (argsortQ_perm sims).length_eq.trans
    (List.length_range _)
  rw [← h, lastSlice_full]

theorem rankedIndices_zero_length (sims : List ℚ) :
    (rankedIndices sims 0).length = sims.countP (fun s => decide (0 < s)) := by
  unfold rankedIndices
  rw [lastSlice_zero, ← List.countP_eq_length_filter]
  calc ((argsortQ sims).reverse).countP (fun idx => decide (0 < sims.getD idx 0))
      = (argsortQ sims).countP (fun idx => decide (0 < sims.getD idx 0)) :=
        ((argsortQ sims).reverse_perm).countP_eq _
    _ = (List.range sims.length).countP (fun idx => decide (0 < sims.getD idx 0)) :=
        (argsortQ_perm sims).countP_eq _
    _ = sims.countP (fun s => decide (0 < s)) :=
        countP_range_getD sims (fun s => decide (0 < s))

/-! ## Cauchy–Schwarz over ℚ lists -/

theorem dotq_nil (w : List ℚ) : dotq [] w = 0 := rfl

theorem dotq_cons (a b : ℚ) (v w : List ℚ) :
    dotq (a :: v) (b :: w) = a * b + dotq v w := by
  simp [dotq]

theorem sqnorm_nil : sqnorm [] = 0 := rfl

theorem sqnorm_cons (a : ℚ) (v : List ℚ) : sqnorm (a :: v) = a * a + sqnorm v := by
  simp [sqnorm, dotq]

theorem sqnorm_nonneg (v : List ℚ) : 0 ≤ sqnorm v := by
  induction v with
  | nil => exact le_refl 0
  | cons a t ih => rw [sqnorm_cons]; nlinarith [mul_self_nonneg a]

theorem dotq_sq_le (v w : List ℚ) : (dotq v w) ^ 2 ≤ sqnorm v * sqnorm w := by
  induction v generalizing w with
  | nil =>
    rw [dotq_nil, sqnorm_nil]
    simp
  | cons a t ih =>
    cases w with
    | nil =>
      show dotq (a :: t) [] ^ 2 ≤ _
      simp [dotq, sqnorm_nil]
    | cons b s =>
      rw [dotq_cons, sqnorm_cons, sqnorm_cons]
      have h := ih s
      have hx := sqnorm_nonneg t
      have hy := sqnorm_nonneg s
      rcases eq_or_lt_of_le hy with hy0 | hy0
      · have hD : dotq t s = 0 := by nlinarith [sq_nonneg (dotq t s)]
        rw [hD, ← hy0]
        nlinarith [mul_nonneg hx (sq_nonneg b)]
      · nlinarith [sq_nonneg (a * sqnorm s - b * dotq t s),
          mul_nonneg (sq_nonneg b) (sub_nonneg.mpr h),
          mul_nonneg (le_of_lt hy0) (sub_nonneg.mpr h)]

theorem simsq_nonneg (v w : List ℚ) : 0 ≤ simsq v w := by
  unfold simsq
  split
  · exact le_refl 0
  · exact div_nonneg (sq_nonneg _)
      (mul_nonneg (sqnorm_nonneg v) (sqnorm_nonneg w))

theorem simsq_le_one (v w : List ℚ) : simsq v w ≤ 1 := by
  unfold simsq
  split
  · exact zero_le_one
  · rename_i h
    push_neg at h
    have hv : 0 < sqnorm v := lt_of_le_of_ne (sqnorm_nonneg v) (Ne.symm h.1)
    have hw : 0 < sqnorm w := lt_of_le_of_ne (sqnorm_nonneg w) (Ne.symm h.2)
    rw [div_le_one (by positivity)]
    exact dotq_sq_le v w

/-! ## The empty query -/

theorem preprocess_query_empty : SHLRecommender.preprocess_query "" = "" := by decide

theorem sklearnAnalyze_empty : sklearnAnalyze "" = [] := by decide

theorem zipWith_all_zero {f : String → ℚ → ℚ} (hf : ∀ t w, f t w = 0) :
    ∀ (v : List String) (i : List ℚ), ∀ x ∈ List.zipWith f v i, x = 0 := by
  intro v
  induction v with
  | nil => intro i x hx; simp at hx
  | cons a t ih =>
    intro i x hx
    cases i with
    | nil => simp at hx
    | cons b s =>
      rw [List.zipWith_cons_cons] at hx
      rcases List.mem_cons.mp hx with h | h
      · rw [h, hf]
      · exact ih s x h

theorem sqnorm_eq_zero_of_all_zero (v : List ℚ) (h : ∀ x ∈ v, x = 0) :
    sqnorm v = 0 := by
  induction v with
  | nil => rfl
  | cons a t ih =>
    rw [sqnorm_cons, h a (List.mem_cons_self a t),
      ih (fun x hx => h x (List.mem_cons_of_mem a hx))]
    ring

theorem transform_empty_query_all_zero (vec : VectState) :
    ∀ x ∈ vec.transform (SHLRecommender.preprocess_query ""), x = 0 := by
  unfold VectState.transform
  rw [preprocess_query_empty, sklearnAnalyze_empty]
  exact zipWith_all_zero (fun t w => by simp) _ _

theorem simsRow_empty_query (vec : VectState) (mat : List (List ℚ)) :
    ∀ s ∈ simsRow vec mat "", s = 0 := by
  intro s hs
  unfold simsRow at hs
  rcases List.mem_map.mp hs with ⟨row, _, rfl⟩
  unfold simsq
  rw [if_pos]
  exact Or.inl (sqnorm_eq_zero_of_all_zero _ (transform_empty_query_all_zero vec))

theorem getD_zero_of_all_zero {l : List ℚ} (h : ∀ x ∈ l, x = 0) (idx : ℕ) :
    l.getD idx 0 = 0 := by
  induction l generalizing idx with
  | nil => rfl
  | cons a t ih =>
    cases idx with
    | zero => exact h a (List.mem_cons_self a t)
    | succ j =>
      rw [List.getD_cons_succ]
      exact ih (fun x hx => h x (List.mem_cons_of_mem a hx)) j

theorem rankedIndices_all_zero {sims : List ℚ} (h : ∀ s ∈ sims, s = 0) (k : ℕ) :
    rankedIndices sims k = [] := by
  unfold rankedIndices
  rw [List.filter_eq_nil_iff]
  intro idx _
  rw [getD_zero_of_all_zero h idx]
  simp

/-! ## Evaluation loop lemmas -/

/-- Any loop step of the accumulate-or-skip shape turns the fold into a
map over the filtered list. -/
theorem foldl_step_eq_map_filter {β : Type} (step : List ℚ × List ℚ → β → List ℚ × List ℚ)
    (keep : β → Bool) (f g : β → ℚ)
    (hstep : ∀ acc b, step acc b =
      if keep b then (acc.1 ++ [f b], acc.2 ++ [g b]) else acc) :
    ∀ (l : List β) (acc : List ℚ × List ℚ),
      l.foldl step acc = (acc.1 ++ (l.filter keep).map f, acc.2 ++ (l.filter keep).map g) := by
  intro l
  induction l with
  | nil => intro acc; simp
  | cons a t ih =>
    intro acc
    rw [List.foldl_cons, hstep, List.filter_cons]
    cases hk : keep a with
    | true =>
      rw [if_pos rfl, ih]
      simp
    | false =>
      rw [if_neg (by simp), ih]
      simp

theorem evalStep_eq (r : SHLRecommender) (k : ℕ) (acc : List ℚ × List ℚ)
    (item : TestItem) :
    evalStep r k acc item =
      if item.counted then (acc.1 ++ [itemRecall r k item], acc.2 ++ [itemAP r k item])
      else acc := by
  unfold evalStep TestItem.counted itemRecall itemAP
  cases hq : (item.query = "" || item.relevantItems.1.isEmpty) with
  | true => rw [if_pos hq, if_neg (by simp [hq])]
  | false => rw [if_neg (by simp [hq]), if_pos (by simp [hq])]

theorem cmStep_eq (r : SHLRecommender) (k : ℕ) (acc : List ℚ × List ℚ)
    (item : TestItem) :
    cmStep r k acc item =
      if item.countedCM then
        (acc.1 ++ [recallOf ((r.recommend item.query k).map Recommendation.name)
            (item.expected_assessments.getD [])],
         acc.2 ++ [apOf ((r.recommend item.query k).map Recommendation.name)
            (item.expected_assessments.getD [])])
      else acc := by
  unfold cmStep TestItem.countedCM
  cases hq : (item.query = "" || (item.expected_assessments.getD []).isEmpty) with
  | true => rw [if_pos hq, if_neg (by simp [hq])]
  | false => rw [if_neg (by simp [hq]), if_pos (by simp [hq])]

theorem evaluate_eq_means (r : SHLRecommender) (tq : List TestItem) (k : ℕ) :
    r.evaluate tq k =
      (meanQ ((tq.filter TestItem.counted).map (itemRecall r k)),
       meanQ ((tq.filter TestItem.counted).map (itemAP r k))) := by
  unfold SHLRecommender.evaluate
  cases tq with
  | nil => rfl
  | cons a t =>
    rw [if_neg (by simp)]
    rw [foldl_step_eq_map_filter (evalStep r k) TestItem.counted
      (itemRecall r k) (itemAP r k) (evalStep_eq r k) (a :: t) ([], [])]
    simp

theorem calculate_metrics_eq_means (r : SHLRecommender) (tq : List TestItem) (k : ℕ) :
    calculate_metrics r tq k =
      (meanQ ((tq.filter TestItem.countedCM).map (fun item =>
        recallOf ((r.recommend item.query k).map Recommendation.name)
          (item.expected_assessments.getD []))),
       meanQ ((tq.filter TestItem.countedCM).map (fun item =>
        apOf ((r.recommend item.query k).map Recommendation.name)
          (item.expected_assessments.getD [])))) := by
  unfold calculate_metrics
  rw [foldl_step_eq_map_filter (cmStep r k) TestItem.countedCM _ _ (cmStep_eq r k) tq ([], [])]
  simp

theorem meanQ_all_zero (l : List ℚ) (h : ∀ x ∈ l, x = 0) : meanQ l = 0 := by
  unfold meanQ
  split
  · rfl
  · rw [List.sum_eq_zero h, zero_div]

theorem recallOf_nil_recommended (relevant : List String) : recallOf [] relevant = 0 := by
  unfold recallOf
  split
  · rfl
  · simp

theorem apOf_nil_recommended (relevant : List String) : apOf [] relevant = 0 := by
  unfold apOf
  split
  · rfl
  · show apLoop relevant [] 0 0 / _ = 0
    rw [show apLoop relevant [] 0 0 = 0 from rfl, zero_div]

/-! ## Collapse-and-strip is join-of-words (claim C8) -/

/-- Words joined by single spaces. -/
def joinWords (ws : List (List Char)) : List Char := (ws.intersperse [' ']).flatten

/-- Trailing-whitespace strip. -/
def stripTrail (l : List Char) : List Char := (l.reverse.dropWhile isPySpace).reverse

theorem collapseWsAux_true (l : List Char) :
    collapseWsAux true l = collapseWs (l.dropWhile isPySpace) := by
  induction l with
  | nil => rfl
  | cons c rest ih =>
    by_cases hc : isPySpace c = true
    · simp only [collapseWsAux]
      rw [if_pos hc, if_pos trivial, ih, List.dropWhile_cons_of_pos hc]
    · simp only [collapseWsAux]
      rw [if_neg hc, List.dropWhile_cons_of_neg hc]
      show _ = collapseWsAux false (c :: rest)
      simp only [collapseWsAux]
      rw [if_neg hc]

theorem collapseWs_cons_space {c : Char} (hc : isPySpace c = true) (rest : List Char) :
    collapseWs (c :: rest) = ' ' :: collapseWs (rest.dropWhile isPySpace) := by
  show collapseWsAux false (c :: rest) = _
  simp only [collapseWsAux]
  rw [if_pos hc, if_neg (by simp), collapseWsAux_true]

theorem collapseWs_cons_nonspace {c : Char} (hc : isPySpace c = false) (rest : List Char) :
    collapseWs (c :: rest) = c :: collapseWs rest := by
  show collapseWsAux false (c :: rest) = _
  simp only [collapseWsAux]
  rw [if_neg (by simp [hc])]
  rfl

theorem collapseWs_word (w X : List Char) (hw : ∀ d ∈ w, isPySpace d = false) :
    collapseWs (w ++ X) = w ++ collapseWs X := by
  induction w with
  | nil => rfl
  | cons d t ih =>
    rw [List.cons_append, collapseWs_cons_nonspace (hw d (List.mem_cons_self d t)),
      ih (fun x hx => hw x (List.mem_cons_of_mem d hx)), List.cons_append]

theorem dropWhile_head_false (p : Char → Bool) (l : List Char) :
    ∀ c ∈ (l.dropWhile p).head?, p c = false := by
  induction l with
  | nil => intro c hc; simp at hc
  | cons a rest ih =>
    intro c hc
    by_cases ha : p a = true
    · rw [List.dropWhile_cons_of_pos ha] at hc
      exact ih c hc
    · rw [List.dropWhile_cons_of_neg ha] at hc
      simp at hc
      rw [← hc]
      exact Bool.eq_false_iff.mpr ha

theorem dropWhile_collapseWs_of_head {m : List Char}
    (hm : ∀ c ∈ m.head?, isPySpace c = false) :
    (collapseWs m).dropWhile isPySpace = collapseWs m := by
  cases m with
  | nil => rfl
  | cons c rest =>
    have hc : isPySpace c = false := hm c (by simp)
    rw [collapseWs_cons_nonspace hc rest,
      List.dropWhile_cons_of_neg (by simp [hc])]

theorem stripTrail_word_append (w X : List Char)
    (hw : ∀ d ∈ w, isPySpace d = false) :
    stripTrail (w ++ X) = w ++ stripTrail X := by
  unfold stripTrail
  rw [List.reverse_append, List.dropWhile_append]
  by_cases hX : (X.reverse.dropWhile isPySpace).isEmpty
  · rw [if_pos hX]
    have hrw : w.reverse.dropWhile isPySpace = w.reverse := by
      cases hwr : w.reverse with
      | nil => rfl
      | cons d t =>
        have hd : d ∈ w := by
          have : d ∈ w.reverse := by rw [hwr]; exact List.mem_cons_self d t
          exact List.mem_reverse.mp this
        rw [List.dropWhile_cons_of_neg (by simp [hw d hd])]
    rw [hrw, List.reverse_reverse]
    have hXe : X.reverse.dropWhile isPySpace = [] := by
      cases h : X.reverse.dropWhile isPySpace with
      | nil => rfl
      | cons a t => rw [h] at hX; simp at hX
    rw [hXe]
    simp
  · rw [if_neg hX, List.reverse_append, List.reverse_reverse]

theorem stripTrail_space_cons (X : List Char) :
    stripTrail (' ' :: X) =
      if stripTrail X = [] then [] else ' ' :: stripTrail X := by
  unfold stripTrail
  rw [show (' ' :: X).reverse = X.reverse ++ [' '] by simp, List.dropWhile_append]
  by_cases hX : (X.reverse.dropWhile isPySpace).isEmpty
  · rw [if_pos hX]
    have hXe : X.reverse.dropWhile isPySpace = [] := by
      cases h : X.reverse.dropWhile isPySpace with
      | nil => rfl
      | cons a t => rw [h] at hX; simp at hX
    rw [hXe]
    have : ([' '] : List Char).dropWhile isPySpace = [] := by decide
    rw [this]
    simp
  · rw [if_neg hX]
    have hXe : X.reverse.dropWhile isPySpace ≠ [] := by
      intro h
      rw [h] at hX
      simp at hX
    rw [if_neg (by simpa using hXe)]
    simp

theorem wordsOf_no_empty (l : List Char) : ∀ w ∈ wordsOf l, w ≠ [] := by
  suffices h : ∀ (n : ℕ) (m : List Char), m.length = n → ∀ w ∈ wordsOf m, w ≠ [] from
    h l.length l rfl
  intro n
  induction n using Nat.strong_induction_on with
  | _ n ih =>
    intro m hn w hw
    cases m with
    | nil => simp [wordsOf] at hw
    | cons c rest =>
      rw [wordsOf] at hw
      have hlen : rest.length + 1 = n := by simpa using hn
      by_cases hc : isPySpace c = true
      · rw [if_pos hc] at hw
        refine ih (rest.dropWhile isPySpace).length ?_ _ rfl w hw
        have := (List.dropWhile_sublist (l := rest) isPySpace).length_le
        omega
      · rw [if_neg hc] at hw
        rcases List.mem_cons.mp hw with h | h
        · rw [h]; simp
        · refine ih (rest.dropWhile (fun d => !isPySpace d)).length ?_ _ rfl w h
          have := (List.dropWhile_sublist (l := rest) (fun d => !isPySpace d)).length_le
          omega

theorem joinWords_cons_cons (w y : List Char) (t : List (List Char)) :
    joinWords (w :: y :: t) = w ++ ' ' :: joinWords (y :: t) := by
  unfold joinWords
  rw [List.intersperse_cons₂]
  simp

theorem joinWords_single (w : List Char) : joinWords [w] = w := by
  unfold joinWords
  simp

/-- The central normalizer lemma: collapsing whitespace runs and then
stripping equals joining the whitespace-separated words with single
spaces. -/
theorem pyStrip_collapseWs (l : List Char) :
    pyStrip (collapseWs l) = joinWords (wordsOf l) := by
  suffices h : ∀ (n : ℕ) (m : List Char), m.length = n →
      pyStrip (collapseWs m) = joinWords (wordsOf m) from h l.length l rfl
  intro n
  induction n using Nat.strong_induction_on with
  | _ n ih =>
    intro l hn
    cases l with
    | nil =>
      have h1 : wordsOf ([] : List Char) = [] := by rw [wordsOf]
      rw [h1]
      rfl
    | cons c rest =>
      have hlen : rest.length + 1 = n := by simpa using hn
      by_cases hc : isPySpace c = true
      · -- leading whitespace: both sides ignore the whole leading run
        rw [collapseWs_cons_space hc rest, wordsOf, if_pos hc]
        have hstep : pyStrip (' ' :: collapseWs (rest.dropWhile isPySpace)) =
            pyStrip (collapseWs (rest.dropWhile isPySpace)) := by
          unfold pyStrip
          rw [List.dropWhile_cons_of_pos (by decide : isPySpace ' ' = true)]
        rw [hstep]
        refine ih (rest.dropWhile isPySpace).length ?_ _ rfl
        have := (List.dropWhile_sublist (l := rest) isPySpace).length_le
        omega
      · -- a word followed by the remainder
        have hc' : isPySpace c = false := Bool.eq_false_iff.mpr hc
        set w := c :: rest.takeWhile (fun d => !isPySpace d) with hw_def
        set r2 := rest.dropWhile (fun d => !isPySpace d) with hr2_def
        have hsplit : c :: rest = w ++ r2 := by
          rw [hw_def, hr2_def, List.cons_append, List.takeWhile_append_dropWhile]
        have hwall : ∀ d ∈ w, isPySpace d = false := by
          intro d hd
          rcases List.mem_cons.mp hd with h | h
          · rw [h]; exact hc'
          · have := List.mem_takeWhile_imp h
            simpa using this
        have hwords : wordsOf (c :: rest) = w :: wordsOf r2 := by
          rw [wordsOf, if_neg hc]
        rw [hwords, hsplit, collapseWs_word w r2 hwall]
        have hlead : ((w ++ collapseWs r2).dropWhile isPySpace) = w ++ collapseWs r2 := by
          rw [hw_def, List.cons_append,
            List.dropWhile_cons_of_neg (by simp [hc'])]
        show pyStrip (w ++ collapseWs r2) = _
        unfold pyStrip
        rw [hlead]
        have hstep : (((w ++ collapseWs r2).reverse.dropWhile isPySpace).reverse) =
            stripTrail (w ++ collapseWs r2) := rfl
        rw [hstep, stripTrail_word_append w _ hwall]
        -- now resolve the remainder r2
        have hr2len : r2.length ≤ rest.length := (List.dropWhile_sublist _).length_le
        cases hr2 : r2 with
        | nil =>
          rw [show collapseWs [] = [] from rfl, show stripTrail [] = [] from rfl,
            show wordsOf [] = [] from by rw [wordsOf], joinWords_single, List.append_nil]
        | cons s t =>
          have hs : isPySpace s = true := by
            have hall := dropWhile_head_false (fun d => !isPySpace d) rest
            rw [← hr2_def, hr2] at hall
            have hhead := hall s (by simp)
            simpa using hhead
          rw [collapseWs_cons_space hs t, stripTrail_space_cons]
          set r3 := t.dropWhile isPySpace with hr3_def
          have hr3head : ∀ d ∈ r3.head?, isPySpace d = false :=
            dropWhile_head_false isPySpace t
          have hTeq : stripTrail (collapseWs r3) = pyStrip (collapseWs r3) := by
            unfold pyStrip
            rw [dropWhile_collapseWs_of_head hr3head]
            rfl
          have hr3len : r3.length < n := by
            have h1 : r3.length ≤ t.length := (List.dropWhile_sublist _).length_le
            have h2 : (s :: t).length ≤ rest.length := hr2 ▸ hr2len
            simp only [List.length_cons] at h2
            omega
          have hIH : pyStrip (collapseWs r3) = joinWords (wordsOf r3) :=
            ih r3.length hr3len r3 rfl
          have hwr2 : wordsOf (s :: t) = wordsOf r3 := by
            rw [wordsOf, if_pos hs, hr3_def]
          rw [hTeq, hIH, hwr2]
          cases hws : wordsOf r3 with
          | nil =>
            rw [show joinWords [] = [] from rfl, if_pos rfl, joinWords_single,
              List.append_nil]
          | cons y t2 =>
            have hyne : y ≠ [] := wordsOf_no_empty r3 y (hws ▸ List.mem_cons_self y t2)
            have hne : joinWords (y :: t2) ≠ [] := by
              cases t2 with
              | nil =>
                rw [joinWords_single]
                exact hyne
              | cons z t3 =>
                rw [joinWords_cons_cons]
                intro hcontra
                rcases List.append_eq_nil.mp hcontra with ⟨hy, _⟩
                exact hyne hy
            rw [if_neg hne, joinWords_cons_cons]

/-! ## Concrete instances

`unitIdf` is the idf table `fun N df => 1`; it is the source's exact idf
value whenever every term occurs in every document (df = N gives
`ln((1+N)/(1+N)) + 1 = 1`), which holds in the two-identical-document
catalog below. -/

def unitIdf : ℕ → ℕ → ℚ := fun _ _ => 1

def rowA : AssessmentRow :=
  { id := "A", name := "A", url := "urlA", description := .pstr "sales manager role" }

def rowB : AssessmentRow :=
  { id := "B", name := "B", url := "urlB", description := .pstr "sales manager role" }

/-- The two-row catalog with identical text, fitted through the full
`__init__(data_file=...)` path. -/
def tieRecommender : SHLRecommender :=
  SHLRecommender.init unitIdf (some (.parsed [rowA, rowB]))

def rowA' : AssessmentRow :=
  { id := "A", name := "A", url := "urlA", description := .pstr "sales manager role",
    remote_support_display := "No", adaptive_irt_display := "No",
    combined_features := "sales manager role " }

def rowB' : AssessmentRow :=
  { id := "B", name := "B", url := "urlB", description := .pstr "sales manager role",
    remote_support_display := "No", adaptive_irt_display := "No",
    combined_features := "sales manager role " }

def tieText : String := "sales manager role "

def tieToks : List String :=
  ["sales", "manager", "role", "sales manager", "manager role", "sales manager role"]

def tieVocab : List String :=
  ["manager", "manager role", "role", "sales", "sales manager", "sales manager role"]

def tieVec : VectState := ⟨tieVocab, [1, 1, 1, 1, 1, 1]⟩

def tieD : List ℚ := tieVec.transform tieText

theorem recommend_mk (df : List AssessmentRow) (vec : VectState)
    (mat : List (List ℚ)) (q : String) (k : ℕ) :
    SHLRecommender.recommend ⟨some df, some vec, some mat⟩ q k =
      (rankedIndices (simsRow vec mat q) k).map
        (fun idx => mkRecommendation (df.getD idx default)
          ((simsRow vec mat q).getD idx 0)) := rfl

theorem tie_fitted : tieRecommender = ⟨some [rowA', rowB'], some tieVec, some [tieD, tieD]⟩ := by
  rfl

theorem tie_doc_tokens : sklearnAnalyze tieText = tieToks := by decide

theorem tie_query_tokens : sklearnAnalyze "sales" = ["sales"] := by decide

theorem tie_preprocess : SHLRecommender.preprocess_query "sales" = "sales" := by decide

theorem tie_dv : tieD = [1, 1, 1, 1, 1, 1] := by
  show List.zipWith (fun t w => (((sklearnAnalyze tieText).count t : ℕ) : ℚ) * w)
    tieVocab [1, 1, 1, 1, 1, 1] = [1, 1, 1, 1, 1, 1]
  simp only [tie_doc_tokens, tieVocab, List.zipWith_cons_cons, List.zipWith_nil_right]
  norm_num [show tieToks.count "manager" = 1 from by decide,
    show tieToks.count "manager role" = 1 from by decide,
    show tieToks.count "role" = 1 from by decide,
    show tieToks.count "sales" = 1 from by decide,
    show tieToks.count "sales manager" = 1 from by decide,
    show tieToks.count "sales manager role" = 1 from by decide]

theorem tie_qv : tieVec.transform "sales" = [0, 0, 0, 1, 0, 0] := by
  show List.zipWith (fun t w => (((sklearnAnalyze "sales").count t : ℕ) : ℚ) * w)
    tieVocab [1, 1, 1, 1, 1, 1] = [0, 0, 0, 1, 0, 0]
  simp only [tie_query_tokens, tieVocab, List.zipWith_cons_cons, List.zipWith_nil_right]
  norm_num [show (["sales"] : List String).count "manager" = 0 from by decide,
    show (["sales"] : List String).count "manager role" = 0 from by decide,
    show (["sales"] : List String).count "role" = 0 from by decide,
    show (["sales"] : List String).count "sales" = 1 from by decide,
    show (["sales"] : List String).count "sales manager" = 0 from by decide,
    show (["sales"] : List String).count "sales manager role" = 0 from by decide]

theorem tie_simsq : simsq (tieVec.transform (SHLRecommender.preprocess_query "sales")) tieD
    = 1/6 := by
  rw [tie_preprocess, tie_qv, tie_dv]
  unfold simsq
  rw [show sqnorm [(0:ℚ), 0, 0, 1, 0, 0] = 1 from by norm_num [sqnorm, dotq],
    show sqnorm [(1:ℚ), 1, 1, 1, 1, 1] = 6 from by norm_num [sqnorm, dotq],
    show dotq [(0:ℚ), 0, 0, 1, 0, 0] [1, 1, 1, 1, 1, 1] = 1 from by norm_num [dotq]]
  norm_num

theorem tie_sims : simsRow tieVec [tieD, tieD] "sales" = [1/6, 1/6] := by
  show [simsq (tieVec.transform (SHLRecommender.preprocess_query "sales")) tieD,
    simsq (tieVec.transform (SHLRecommender.preprocess_query "sales")) tieD] = _
  rw [tie_simsq]

theorem rankedIndices_twin (x : ℚ) (hx : 0 < x) : rankedIndices [x, x] 5 = [1, 0] := by
  unfold rankedIndices argsortQ
  have hsort : List.insertionSort (simLe [x, x]) (List.range ([x, x] : List ℚ).length)
      = [0, 1] := by
    show List.orderedInsert _ 0 (List.orderedInsert _ 1 []) = [0, 1]
    simp only [List.orderedInsert]
    rw [if_pos (show simLe [x, x] 0 1 from Or.inr ⟨rfl, by norm_num⟩)]
  rw [hsort]
  rw [show lastSlice [0, 1] 5 = [0, 1] from rfl,
    show ([0, 1] : List ℕ).reverse = [1, 0] from by decide]
  simp only [List.filter_cons, List.filter_nil]
  rw [show ([x, x] : List ℚ).getD 1 0 = x from rfl,
    show ([x, x] : List ℚ).getD 0 0 = x from rfl, decide_eq_true hx]
  rfl

/-- The tie counterexample, fully evaluated: both documents score exactly
1/6, and the later catalog row B is returned first. -/
theorem tie_recommend :
    tieRecommender.recommend "sales" 5 =
      [mkRecommendation rowB' (1/6), mkRecommendation rowA' (1/6)] := by
  rw [tie_fitted, recommend_mk, tie_sims,
    rankedIndices_twin (1/6) (by norm_num)]
  rfl

/-! ## The unfitted recommender -/

theorem recommend_unfitted {r : SHLRecommender}
    (h : r.data_df = none ∨ r.tfidf_vectorizer = none ∨ r.tfidf_matrix = none)
    (q : String) (k : ℕ) : r.recommend q k = [] := by
  rcases r with ⟨d, v, m⟩
  rcases h with h | h | h
  · cases h; rfl
  · cases h; cases d <;> rfl
  · cases h; cases d <;> cases v <;> rfl

theorem recommend_empty_query (r : SHLRecommender) (k : ℕ) :
    r.recommend "" k = [] := by
  rcases r with ⟨d, v, m⟩
  cases d with
  | none => rfl
  | some df =>
    cases v with
    | none => rfl
    | some vec =>
      cases m with
      | none => rfl
      | some mat =>
        show (rankedIndices (simsRow vec mat "") k).map _ = []
        rw [rankedIndices_all_zero (simsRow_empty_query vec mat) k]
        rfl

/-! ## Metric formula equivalences -/

theorem inter_card_eq (recommended expected : List String) :
    ((recommended.filter (fun x => expected.contains x)).dedup).length =
      (recommended.toFinset ∩ expected.toFinset).card := by
  classical
  rw [← List.card_toFinset, List.toFinset_filter, ← Finset.filter_mem_eq_inter]
  congr 1
  apply Finset.filter_congr
  intro x _
  simp

theorem recallOf_eq_specRecall (recommended expected : List String) :
    recallOf recommended expected = specRecall recommended expected := by
  unfold recallOf specRecall
  by_cases h : expected.isEmpty
  · rw [if_pos h]
    have hlen : expected.length = 0 := by
      cases expected with
      | nil => rfl
      | cons a t => simp at h
    rw [hlen]
    norm_num
  · rw [if_neg h, inter_card_eq]

theorem apLoop_eq_sum (relevant : List String) :
    ∀ (l : List String) (i c : ℕ),
      apLoop relevant l i c =
        ∑ j ∈ Finset.range l.length,
          (if relevant.contains (l.getD j "") then
            ((c : ℚ) + ((l.take (j + 1)).countP (fun x => relevant.contains x) : ℚ)) /
              ((i : ℚ) + (j : ℚ) + 1)
          else 0) := by
  intro l
  induction l with
  | nil => intro i c; simp [apLoop]
  | cons a rest ih =>
    intro i c
    simp only [apLoop]
    rw [List.length_cons, Finset.sum_range_succ']
    by_cases ha : relevant.contains a = true
    · rw [if_pos ha, ih (i + 1) (c + 1), add_comm]
      congr 1
      · apply Finset.sum_congr rfl
        intro j _
        rw [List.getD_cons_succ, List.take_succ_cons,
          List.countP_cons_of_pos _ _ (by exact ha)]
        split
        · push_cast
          ring_nf
        · rfl
      · rw [List.getD_cons_zero, if_pos ha]
        have h1 : ((a :: rest).take (0 + 1)).countP (fun x => relevant.contains x) = 1 := by
          rw [show (a :: rest).take (0 + 1) = [a] from rfl,
            List.countP_cons_of_pos _ _ (by exact ha), List.countP_nil]
        rw [h1]
        push_cast
        ring_nf
    · have ha' : relevant.contains a = false := by
        cases hc : relevant.contains a
        · rfl
        · exact absurd hc ha
      rw [if_neg ha, ih (i + 1) c]
      have h0 : (if relevant.contains ((a :: rest).getD 0 "") = true then
          ((c : ℚ) + (((a :: rest).take (0 + 1)).countP (fun x => relevant.contains x) : ℚ)) /
            ((i : ℚ) + ((0 : ℕ) : ℚ) + 1)
        else 0) = 0 := by
        rw [List.getD_cons_zero, if_neg ha]
      rw [h0, add_zero]
      have hmem : a ∉ relevant := by simpa using ha'
      apply Finset.sum_congr rfl
      intro j _
      rw [List.getD_cons_succ, List.take_succ_cons,
        List.countP_cons_of_neg _ _ (by simpa using hmem)]
      split
      · push_cast
        ring_nf
      · rfl

theorem apOf_eq_specAP (recommended expected : List String) :
    apOf recommended expected = specAP recommended expected := by
  unfold apOf specAP
  by_cases h : expected.isEmpty
  · rw [if_pos h]
    have hlen : expected.length = 0 := by
      cases expected with
      | nil => rfl
      | cons a t => simp at h
    rw [hlen]
    norm_num
  · rw [if_neg h, apLoop_eq_sum]
    congr 1
    apply Finset.sum_congr rfl
    intro j _
    split
    · push_cast
      ring_nf
    · rfl

theorem evaluate_unfitted {r : SHLRecommender}
    (h : r.data_df = none ∨ r.tfidf_vectorizer = none ∨ r.tfidf_matrix = none)
    (tq : List TestItem) (k : ℕ) : r.evaluate tq k = (0, 0) := by
  rw [evaluate_eq_means]
  have h1 : ∀ x ∈ (tq.filter TestItem.counted).map (itemRecall r k), x = 0 := by
    intro x hx
    rcases List.mem_map.mp hx with ⟨item, _, rfl⟩
    unfold itemRecall
    rw [recommend_unfitted h]
    exact recallOf_nil_recommended _
  have h2 : ∀ x ∈ (tq.filter TestItem.counted).map (itemAP r k), x = 0 := by
    intro x hx
    rcases List.mem_map.mp hx with ⟨item, _, rfl⟩
    unfold itemAP
    rw [recommend_unfitted h]
    exact apOf_nil_recommended _
  rw [meanQ_all_zero _ h1, meanQ_all_zero _ h2]

theorem getD_mem_or_default (l : List ℚ) (i : ℕ) :
    l.getD i 0 ∈ l ∨ l.getD i 0 = 0 := by
  induction l generalizing i with
  | nil => exact Or.inr rfl
  | cons a t ih =>
    cases i with
    | zero => exact Or.inl (List.mem_cons_self a t)
    | succ j =>
      rw [List.getD_cons_succ]
      rcases ih j with h | h
      · exact Or.inl (List.mem_cons_of_mem a h)
      · exact Or.inr h

/-! # The claims -/

/-- C1 (corrected, counterexample): a recommender whose fitted state is
absent — reachable by constructing with a missing data file, so the
module-level handle itself is not `None` — serves `/recommend` with a
normal 200 response carrying an empty list, and `evaluate` with `(0,0)`;
no ServiceUnavailable is raised, contradicting the claim as stated. -/
theorem C1_counterexample_unfitted_normal_result :
    SHLRecommender.init unitIdf (some .fileNotFound) = ⟨none, none, none⟩
    ∧ app_recommend (some (SHLRecommender.init unitIdf (some .fileNotFound)))
        "team leadership" 5 = .ok ⟨"team leadership", []⟩
    ∧ (SHLRecommender.init unitIdf (some .fileNotFound)).evaluate
        [⟨"hiring team lead", some ["X"], []⟩] 3 = (0, 0) := by
  refine ⟨rfl, rfl, ?_⟩
  exact evaluate_unfitted (Or.inl rfl) _ _

/-- C1 (amended): ServiceUnavailable (HTTP 503) is raised exactly when
the module-level recommender handle is `None` (startup threw before
assigning it); when the recommender object exists but any of its fitted
attributes is `None`, `recommend` returns the empty list and `evaluate`
returns `(0,0)` — normal results, not errors. -/
theorem C1_amended_unavailable_only_when_handle_none (q : String) (k : ℕ)
    (v : Option VectState)
    (m : Option (List (List ℚ))) (df : List AssessmentRow) (vec : VectState)
    (tq : List TestItem) :
    app_recommend none q k = .error .serviceUnavailable
    ∧ SHLRecommender.recommend ⟨none, v, m⟩ q k = []
    ∧ SHLRecommender.recommend ⟨some df, none, m⟩ q k = []
    ∧ SHLRecommender.recommend ⟨some df, some vec, none⟩ q k = []
    ∧ app_recommend (some ⟨none, v, m⟩) q k = .ok ⟨q, []⟩
    ∧ SHLRecommender.evaluate ⟨none, v, m⟩ tq k = (0, 0) := by
  have h1 : SHLRecommender.recommend ⟨none, v, m⟩ q k = [] :=
    recommend_unfitted (Or.inl rfl) q k
  refine ⟨rfl, h1, recommend_unfitted (Or.inr (Or.inl rfl)) q k,
    recommend_unfitted (Or.inr (Or.inr rfl)) q k, ?_, ?_⟩
  · show Except.ok (RecommendationResponse.mk q (SHLRecommender.recommend ⟨none, v, m⟩ q k)) =
      Except.ok (RecommendationResponse.mk q [])
    rw [h1]
  · exact evaluate_unfitted (Or.inl rfl) tq k

/-- C2 (corrected, counterexample): building the index from the empty
catalog `[]`, a missing file, or invalid JSON completes normally — the
result is `.ok` with a fully unfitted recommender; no DataError is
raised. -/
theorem C2_counterexample_no_dataError :
    build_index unitIdf (.parsed []) = .ok ⟨none, none, none⟩
    ∧ build_index unitIdf .fileNotFound = .ok ⟨none, none, none⟩
    ∧ build_index unitIdf .badJson = .ok ⟨none, none, none⟩ :=
  ⟨rfl, rfl, rfl⟩

/-- C2 (amended): on empty or unparseable catalog input no fitted state
is produced, but the failure is signalled by leaving the recommender
unfitted (every error handler returns an empty DataFrame and fitting is
skipped), not by raising DataError: `build_index` returns `.ok` with the
untouched, unfitted recommender for every idf table. -/
theorem C2_amended_empty_input_unfitted (idfP : ℕ → ℕ → ℚ) :
    build_index idfP (.parsed []) = .ok ⟨none, none, none⟩
    ∧ build_index idfP .fileNotFound = .ok ⟨none, none, none⟩
    ∧ build_index idfP .badJson = .ok ⟨none, none, none⟩ :=
  ⟨rfl, rfl, rfl⟩

/-- C3 (corrected, counterexample): a catalog of two rows A then B with
identical text, fitted through the full pipeline, queried with "sales":
both documents score exactly 1/6, yet B — the *later* catalog row — is
returned first, contradicting tie-breaking by catalog insertion order. -/
theorem C3_counterexample_tie_order :
    (tieRecommender.recommend "sales" 5).map Recommendation.name = ["B", "A"]
    ∧ (tieRecommender.recommend "sales" 5).map Recommendation.similarity_score
      = [1/6, 1/6] := by
  rw [tie_recommend]
  exact ⟨rfl, rfl⟩

/-- C3 (amended): whenever two returned documents have exactly equal
similarity scores, `recommend` orders them by *descending* catalog index
(the later catalog row first): the code reverses an ascending stable
argsort, so the reported index list is pairwise "strictly greater
similarity, or equal similarity and greater-or-equal index". -/
theorem C3_amended_ties_in_reverse_catalog_order (sims : List ℚ) (k : ℕ) :
    (rankedIndices sims k).Pairwise
      (fun a b => sims.getD b 0 < sims.getD a 0 ∨
        (sims.getD a 0 = sims.getD b 0 ∧ b ≤ a)) := by
  refine (rankedIndices_pairwise sims k).imp ?_
  intro a b hab
  rcases hab with h | ⟨he, hle⟩
  · exact Or.inl h
  · exact Or.inr ⟨he.symm, hle⟩

/-- C4 (confirmed): for every recommender state, query and k ≥ 1
(written k+1), `recommend` returns at most k results; every returned
similarity score is strictly positive and at most 1; the scores are
non-increasing along the result; the number of results never exceeds the
number of documents with positive similarity, so when fewer than k
documents have positive similarity, fewer than k results come back —
never padded. -/
theorem C4_recommend_shape (r : SHLRecommender) (q : String) (k : ℕ) :
    (r.recommend q (k + 1)).length ≤ k + 1
    ∧ (∀ rec ∈ r.recommend q (k + 1),
        0 < rec.similarity_score ∧ rec.similarity_score ≤ 1)
    ∧ ((r.recommend q (k + 1)).map Recommendation.similarity_score).Pairwise
        (fun a b => b ≤ a)
    ∧ (r.recommend q (k + 1)).length ≤ r.posCount q
    ∧ (r.posCount q < k + 1 → (r.recommend q (k + 1)).length < k + 1) := by
  rcases r with ⟨d, v, m⟩
  have main : ∀ (df : List AssessmentRow) (vec : VectState) (mat : List (List ℚ)),
      (SHLRecommender.recommend ⟨some df, some vec, some mat⟩ q (k + 1)).length ≤ k + 1
      ∧ (∀ rec ∈ SHLRecommender.recommend ⟨some df, some vec, some mat⟩ q (k + 1),
          0 < rec.similarity_score ∧ rec.similarity_score ≤ 1)
      ∧ ((SHLRecommender.recommend ⟨some df, some vec, some mat⟩ q (k + 1)).map
          Recommendation.similarity_score).Pairwise (fun a b => b ≤ a)
      ∧ (SHLRecommender.recommend ⟨some df, some vec, some mat⟩ q (k + 1)).length ≤
          SHLRecommender.posCount ⟨some df, some vec, some mat⟩ q := by
    intro df vec mat
    rw [recommend_mk]
    set sims := simsRow vec mat q with hsims
    have hle1 : ∀ s ∈ sims, s ≤ 1 := by
      intro s hs
      rcases List.mem_map.mp hs with ⟨row, _, rfl⟩
      exact simsq_le_one _ row
    refine ⟨?_, ?_, ?_, ?_⟩
    · rw [List.length_map]
      exact rankedIndices_length_le (Nat.succ_ne_zero k)
    · intro rec hrec
      rcases List.mem_map.mp hrec with ⟨idx, hidx, rfl⟩
      refine ⟨(rankedIndices_mem hidx).2, ?_⟩
      show sims.getD idx 0 ≤ 1
      rcases getD_mem_or_default sims idx with h | h
      · exact hle1 _ h
      · rw [h]; exact zero_le_one
    · rw [List.map_map]
      have hp := rankedIndices_pairwise sims (k + 1)
      rw [List.pairwise_map]
      refine hp.imp ?_
      intro a b hab
      show sims.getD b 0 ≤ sims.getD a 0
      rcases hab with h | ⟨he, _⟩
      · exact le_of_lt h
      · exact le_of_eq he
    · rw [List.length_map]
      show (rankedIndices sims (k + 1)).length ≤ sims.countP (fun s => decide (0 < s))
      exact rankedIndices_length_le_countP sims (k + 1)
  cases d with
  | none =>
    have hrec : SHLRecommender.recommend ⟨none, v, m⟩ q (k + 1) = [] :=
      recommend_unfitted (Or.inl rfl) q (k + 1)
    rw [hrec]
    exact ⟨by simp, by simp, by simp, by simp, fun _ => by simp⟩
  | some df =>
    cases v with
    | none =>
      have hrec : SHLRecommender.recommend ⟨some df, none, m⟩ q (k + 1) = [] :=
        recommend_unfitted (Or.inr (Or.inl rfl)) q (k + 1)
      rw [hrec]
      exact ⟨by simp, by simp, by simp, by simp, fun _ => by simp⟩
    | some vec =>
      cases m with
      | none =>
        have hrec : SHLRecommender.recommend ⟨some df, some vec, none⟩ q (k + 1) = [] :=
          recommend_unfitted (Or.inr (Or.inr rfl)) q (k + 1)
        rw [hrec]
        exact ⟨by simp, by simp, by simp, by simp, fun _ => by simp⟩
      | some mat =>
        rcases main df vec mat with ⟨h1, h2, h3, h4⟩
        exact ⟨h1, h2, h3, h4, fun hlt => lt_of_le_of_lt h4 hlt⟩

/-- C5 (confirmed): `evaluate` skips every test query with empty query
text or empty relevant list: the two returned values are the arithmetic
means of per-query Recall@k and average precision over exactly the
counted (non-skipped) queries, 0 when none is counted; running on only
skipped queries yields `(0,0)`. -/
theorem C5_evaluate_skips_uncounted (r : SHLRecommender) (tq : List TestItem) (k : ℕ) :
    r.evaluate tq k =
      (meanQ ((tq.filter TestItem.counted).map (itemRecall r k)),
       meanQ ((tq.filter TestItem.counted).map (itemAP r k)))
    ∧ r.evaluate (tq.filter (fun item => !item.counted)) k = (0, 0)
    ∧ meanQ [] = 0 := by
  refine ⟨evaluate_eq_means r tq k, ?_, rfl⟩
  rw [evaluate_eq_means]
  rw [List.filter_filter]
  have hfalse : ∀ item : TestItem,
      (TestItem.counted item && !TestItem.counted item) = false := by
    intro item
    cases TestItem.counted item <;> rfl
  have : tq.filter (fun a => TestItem.counted a && !TestItem.counted a) = [] := by
    rw [List.filter_eq_nil_iff]
    intro a _
    rw [hfalse a]
    simp
  rw [this]
  rfl

/-- C6 (confirmed): `calculate_metrics` computes, for every counted test
query, recall as |top-k ∩ expected| / |expected| and average precision
by scanning the ranking in order, each hit adding hits-so-far over its
1-indexed rank, the sum divided by |expected|; on the claim's concrete
example (expected {A, C}, ranking [A, B], k = 2) recall is 1/2 and AP is
1/2. -/
theorem C6_metric_formulas (r : SHLRecommender) (tq : List TestItem) (k : ℕ)
    (recommended expected : List String) :
    calculate_metrics r tq k =
      (meanQ ((tq.filter TestItem.countedCM).map (fun item =>
        specRecall ((r.recommend item.query k).map Recommendation.name)
          (item.expected_assessments.getD []))),
       meanQ ((tq.filter TestItem.countedCM).map (fun item =>
        specAP ((r.recommend item.query k).map Recommendation.name)
          (item.expected_assessments.getD []))))
    ∧ recallOf recommended expected = specRecall recommended expected
    ∧ apOf recommended expected = specAP recommended expected
    ∧ recallOf ["A", "B"] ["A", "C"] = 1/2
    ∧ apOf ["A", "B"] ["A", "C"] = 1/2 := by
  have hrecall : recallOf ["A", "B"] ["A", "C"] = 1/2 := by
    unfold recallOf
    rw [if_neg (by decide)]
    rw [show (((["A", "B"].filter (fun x => ["A", "C"].contains x))).dedup).length = 1
      from by decide]
    norm_num
  have hap : apOf ["A", "B"] ["A", "C"] = 1/2 := by
    unfold apOf
    rw [if_neg (by decide)]
    simp only [apLoop]
    rw [if_pos (by decide : (["A", "C"] : List String).contains "A" = true),
      if_neg (by decide : ¬(["A", "C"] : List String).contains "B" = true)]
    norm_num
  refine ⟨?_, recallOf_eq_specRecall recommended expected,
    apOf_eq_specAP recommended expected, hrecall, hap⟩
  rw [calculate_metrics_eq_means]
  simp only [recallOf_eq_specRecall, apOf_eq_specAP]

/-- C7 (confirmed): for every recommender state (any fitted catalog
included) and every k, `recommend` on the empty query returns the empty
sequence: the empty query transforms to the zero vector, no document
gets strictly positive similarity, and an empty list — not an error —
comes back. -/
theorem C7_empty_query_empty_result (r : SHLRecommender) (k : ℕ) :
    r.recommend "" k = [] :=
  recommend_empty_query r k

/-- C8 (confirmed): the text normalizer lowercases, turns every
character outside alphanumeric/underscore/whitespace/hyphen into a
space, collapses whitespace runs and trims — equivalently, it joins the
whitespace-separated words of the substituted lowercase text with single
spaces — and every non-string input maps to the empty string. -/
theorem C8_clean_text_spec (o : PyObj) :
    clean_text o = normalizeSpec o ∧ clean_text PyObj.nonString = "" := by
  refine ⟨?_, rfl⟩
  cases o with
  | nonString => rfl
  | pstr s =>
    show String.mk (pyStrip (collapseWs (lowerSub s))) = _
    rw [pyStrip_collapseWs]
    rfl

/-- C9 (confirmed): the fit-time normalizer (`clean_text`, applied to
every catalog description by `preprocess_data`) and the query-time
normalizer (`preprocess_query`) compute the same function on strings —
the two source bodies are character-for-character identical. -/
theorem C9_same_normalization (s : String) (rows : List AssessmentRow) :
    SHLRecommender.preprocess_query s = clean_text (.pstr s)
    ∧ (preprocess_data rows).map (fun r => r.description) =
        rows.map (fun r => PyObj.pstr (clean_text r.description)) := by
  refine ⟨rfl, ?_⟩
  unfold preprocess_data
  rw [List.map_map]
  rfl

/-- C10 (confirmed, implicit claim): calling `recommend` with
`num_recommendations = 0` makes the slice `[-0:]` select the whole
argsort, so the call behaves exactly like asking for the full catalog
size and returns one result per document with strictly positive
similarity — not zero results. -/
theorem C10_zero_k_returns_all_positive (df : List AssessmentRow) (vec : VectState)
    (mat : List (List ℚ)) (q : String) :
    SHLRecommender.recommend ⟨some df, some vec, some mat⟩ q 0 =
      SHLRecommender.recommend ⟨some df, some vec, some mat⟩ q mat.length
    ∧ (SHLRecommender.recommend ⟨some df, some vec, some mat⟩ q 0).length =
      SHLRecommender.posCount ⟨some df, some vec, some mat⟩ q := by
  have hlen : (simsRow vec mat q).length = mat.length := by
    unfold simsRow
    rw [List.length_map]
  constructor
  · rw [recommend_mk, recommend_mk, ← hlen, rankedIndices_zero_eq_full]
  · rw [recommend_mk, List.length_map]
    show (rankedIndices (simsRow vec mat q) 0).length =
      (simsRow vec mat q).countP (fun s => decide (0 < s))
    exact rankedIndices_zero_length (simsRow vec mat q)
